import Mathlib

/-!
# PodCache: a verification model of the core subsystems

A shallow embedding of the PodCache server core (partitioned in-memory LRU
tier, content-addressed disk tier, coordinator, RESP codec and the command
handlers), translated from the C sources:

* `src/lru_cache.c`    — bounded-byte LRU partition
* `src/cas.c`          — content-addressed disk store
* `src/pod_cache.c`    — two-tier coordinator
* `src/resp_parser.c`  — RESP command framing and command decoding
* `src/server_tcp.c`   — command handlers and dispatch table
* `src/hash_func.c`    — DJB2 key hash

Modelling conventions:

* Byte strings (`char *` buffers with an explicit size, and NUL-terminated C
  strings) are `List Nat` of byte values.  Keys and values flowing through the
  handlers are C strings in the source; the model assumes they contain no NUL
  byte, so `strcmp`/`strlen` agree with list equality/length.
* `size_t`/`uint32_t` arithmetic is carried out on `Nat`, with an explicit
  `% 2 ^ 32` where the C computation wraps (the DJB2 hash).  The one `size_t`
  delta update `current_bytes_size += (new_size - old_size)` is written as
  `current + new - old` on `Nat`; on every state where the old entry is
  accounted in `current_bytes_size` (all reachable states) this equals the
  wrapped C result.
* The CAS store is addressed by the SHA-256 digest of the key in the source;
  the model keys the disk directly by the key (the digest is injective on the
  keys the server can ever see), and abstracts the filesystem into a list of
  key/value pairs.  I/O never fails in the model.
* Heap allocation failures, the per-partition mutex and logging are not
  modelled: operations are the source's single-threaded success paths.
-/

namespace PodCache

/-- A byte string: a list of byte values. -/
abbrev Bytes := List Nat

/-- Bytes of an ASCII string literal (used to transcribe C string constants). -/
def ascii (s : String) : Bytes := s.toList.map Char.toNat

/-- The decimal digit bytes `printf` produces for a natural number. -/
def decRepr (n : Nat) : Bytes :=
  if n = 0 then [48] else (Nat.digits 10 n).reverse.map (· + 48)

/-- The decimal digit bytes `sprintf("%ld", i)` produces for an integer. -/
def intRepr (i : Int) : Bytes :=
  if i < 0 then 45 :: decRepr i.natAbs else decRepr i.toNat

/-! ## LRU partition (`src/lru_cache.c`)

The C partition keeps a chained hash table from key to node plus a doubly
linked recency list.  The hash table is an index over exactly the nodes of the
list, so the model collapses both into one association list in recency order:
the head is the most recently used node, the last element is the LRU tail.
`creation_time` plays no role in any operation and is omitted. -/

/-- One resident entry (`lru_node_t`): key, value bytes.  The node's `size`
field always equals the length of the copied value buffer. -/
structure Entry where
  key : Bytes
  value : Bytes
deriving Repr, DecidableEq

/-- `lru_cache_t`: byte budget, bucket-array size, recency list (head = most
recently used), and the byte counter. -/
structure lru_cache_t where
  max_bytes_capacity : Nat
  hash_table_size : Nat
  entries : List Entry
  current_bytes_size : Nat
deriving Repr, DecidableEq

/-- The doubling loop of `calculate_hash_table_size`:
`while (size < target_size && size < 65536) size <<= 1;`.
The fuel argument only bounds the iteration count; 13 iterations reach
`65536` from the initial `16`, after which the guard is false. -/
def htLoop : Nat → Nat → Nat → Nat
  | 0, size, _ => size
  | fuel + 1, size, target =>
    if size < target ∧ size < 65536 then htLoop fuel (2 * size) target else size

/-- `calculate_hash_table_size`: estimates one element per KiB, targets a 0.75
load factor, and rounds up to a power of two in `[16, 65536]`.  The C source
computes `target_size = estimated_elements / 0.75` in `double`; for every
`estimated_elements ≤ 4096 * 1024` that value truncates to `4 * e / 3` on
`Nat` (the division is exact when `3 ∣ 4e`, and the rounding error is far
below the distance to the next integer otherwise). -/
def calculate_hash_table_size (max_bytes_capacity : Nat) : Nat :=
  let estimated_elements := max_bytes_capacity / 1024
  let target_size := 4 * estimated_elements / 3
  htLoop 13 16 target_size

/-- `lru_cache_create`: empty partition.  Note the source allocates and uses
`calculate_hash_table_size(max_bytes_capacity) + 1` buckets. -/
def lru_cache_create (max_bytes_capacity : Nat) : lru_cache_t :=
  { max_bytes_capacity := max_bytes_capacity
    hash_table_size := calculate_hash_table_size max_bytes_capacity + 1
    entries := []
    current_bytes_size := 0 }

/-- Key lookup: the hash-chain walk with `strcmp` finds the unique node whose
key equals `key`; on the collapsed list this is the first match. -/
def lruFind (s : lru_cache_t) (key : Bytes) : Option Entry :=
  s.entries.find? (fun e => e.key == key)

/-- `lru_cache_get`: on hit, return a copy of the value and move the node to
the head of the recency list; on miss (`-100` in C) return `none`. -/
def lru_cache_get (s : lru_cache_t) (key : Bytes) : Option Bytes × lru_cache_t :=
  match s.entries.find? (fun e => e.key == key) with
  | some e =>
    (some e.value,
     { s with entries := e :: s.entries.eraseP (fun x => x.key == key) })
  | none => (none, s)

/-- Result of `lru_cache_put`: `0` (ok) or the distinguished `-900`
(overflow, caller must make room). -/
inductive LruPutResult where
  | ok
  | overflow
deriving Repr, DecidableEq

/-- `lru_cache_put`.  The capacity check
`current_bytes_size + value_size >= max_bytes_capacity` runs *before* the
existing-key scan; only afterwards is the key looked up and either updated in
place (delta-adjusting the byte counter, moving the node to the head) or
freshly inserted at the head. -/
def lru_cache_put (s : lru_cache_t) (key : Bytes) (value : Bytes) :
    LruPutResult × lru_cache_t :=
  if s.current_bytes_size + value.length ≥ s.max_bytes_capacity then
    (.overflow, s)
  else
    match s.entries.find? (fun e => e.key == key) with
    | some e =>
      (.ok,
       { s with
         entries := { key := e.key, value := value } ::
           s.entries.eraseP (fun x => x.key == key)
         current_bytes_size := s.current_bytes_size + value.length - e.value.length })
    | none =>
      (.ok,
       { s with
         entries := { key := key, value := value } :: s.entries
         current_bytes_size := s.current_bytes_size + value.length })

/-- `lru_cache_evict`: remove the node for `key` from both structures and
release its bytes; `true` for the C `0`, `false` for the miss code `-100`. -/
def lru_cache_evict (s : lru_cache_t) (key : Bytes) : Bool × lru_cache_t :=
  match s.entries.find? (fun e => e.key == key) with
  | some e =>
    (true,
     { s with
       entries := s.entries.eraseP (fun x => x.key == key)
       current_bytes_size := s.current_bytes_size - e.value.length })
  | none => (false, s)

/-- `lru_cache_get_tail_node`: the LRU tail, without touching the ordering. -/
def lru_cache_get_tail_node (s : lru_cache_t) : Option Entry :=
  s.entries.getLast?

/-- `lru_cache_remove_tail`: unlink the LRU tail and release its bytes;
`false` for the C `-1` on an empty partition. -/
def lru_cache_remove_tail (s : lru_cache_t) : Bool × lru_cache_t :=
  match s.entries.getLast? with
  | none => (false, s)
  | some e =>
    (true,
     { s with
       entries := s.entries.dropLast
       current_bytes_size := s.current_bytes_size - e.value.length })

/-! ## CAS disk tier (`src/cas.c`)

The store persists one blob per key under a digest-fanned-out directory; the
model abstracts the filesystem to an association list keyed by the key. -/

/-- `cas_registry_t`: the set of spilled entries, keyed by cache key. -/
structure cas_registry_t where
  disk : List (Bytes × Bytes)
deriving Repr, DecidableEq

/-- Fresh registry over an empty base directory. -/
def cas_create_registry : cas_registry_t := { disk := [] }

/-- `cas_put`: replace-or-create the on-disk layout for `key` and write the
value blob.  I/O succeeds in the model, so no error outcome. -/
def cas_put (r : cas_registry_t) (key : Bytes) (value : Bytes) : cas_registry_t :=
  { disk := (key, value) :: r.disk.eraseP (fun kv => kv.1 == key) }

/-- `cas_get`: read back the blob for `key`, or `none` when `value.dat` is
absent (the C `-1`). -/
def cas_get (r : cas_registry_t) (key : Bytes) : Option Bytes :=
  (r.disk.find? (fun kv => kv.1 == key)).map (fun kv => kv.2)

/-- `cas_evict`: remove the on-disk layout for `key`; `true` for the C `0`,
`false` (`-1`) when nothing was on disk for it. -/
def cas_evict (r : cas_registry_t) (key : Bytes) : Bool × cas_registry_t :=
  match r.disk.find? (fun kv => kv.1 == key) with
  | some _ => (true, { disk := r.disk.eraseP (fun kv => kv.1 == key) })
  | none => (false, r)

/-! ## Key hashing (`src/hash_func.c`) -/

/-- DJB2 over the bytes of the key, on `uint32_t`.  The C loop reads the
string through a (signed) `int`; the model assumes key bytes below `0x80`,
where the promotion is the identity. -/
def hash_djb2 (key : Bytes) : Nat :=
  key.foldl (fun h c => (h * 33 + c) % 2 ^ 32) 5381

/-- `hash`: the partition-selection hash. -/
def hash (key : Bytes) : Nat := hash_djb2 key

/-! ## Coordinator (`src/pod_cache.c`) -/

/-- `pod_cache_t`: partition array plus the CAS registry. -/
structure pod_cache_t where
  partition_capacity : Nat
  partition_count : Nat
  partitions : List lru_cache_t
  cas_registry : cas_registry_t
deriving Repr, DecidableEq

/-- `get_partition`: `hash % partition_count`. -/
def get_partition (h : Nat) (partition_count : Nat) : Nat := h % partition_count

/-- `pod_cache_create`: `partitions` equal partitions of
`capacity / partitions` bytes each, over a fresh CAS registry. -/
def pod_cache_create (capacity : Nat) (partitions : Nat) : pod_cache_t :=
  { partition_capacity := capacity / partitions
    partition_count := partitions
    partitions := List.replicate partitions (lru_cache_create (capacity / partitions))
    cas_registry := cas_create_registry }

/-- The partition selected for a key (out-of-range indices cannot occur when
`partition_count = partitions.length > 0`). -/
def selectedPartition (c : pod_cache_t) (key : Bytes) : lru_cache_t :=
  c.partitions.getD (get_partition (hash key) c.partition_count) (lru_cache_create 0)

/-- `pod_cache_put`: try the partition; on overflow (`-900`) spill the LRU
tail to the CAS store, pop it, and retry exactly once.  `some idx` models the
returned partition index, `none` the C `-1` failure.  The failure after a
spill leaves the spill in place (the C returns with the tail already moved to
disk).  `cas_put` cannot fail in the model, so the corresponding `-1` branch
is absent. -/
def pod_cache_put (c : pod_cache_t) (key : Bytes) (value : Bytes) :
    Option Nat × pod_cache_t :=
  let idx := get_partition (hash key) c.partition_count
  let p := c.partitions.getD idx (lru_cache_create 0)
  match lru_cache_put p key value with
  | (.ok, p') => (some idx, { c with partitions := c.partitions.set idx p' })
  | (.overflow, _) =>
    match lru_cache_get_tail_node p with
    | none => (none, c)
    | some tail =>
      let cas' := cas_put c.cas_registry tail.key tail.value
      let p1 := (lru_cache_remove_tail p).2
      match lru_cache_put p1 key value with
      | (.ok, p2) =>
        (some idx, { c with partitions := c.partitions.set idx p2, cas_registry := cas' })
      | (.overflow, p2) =>
        (none, { c with partitions := c.partitions.set idx p2, cas_registry := cas' })

/-- `pod_cache_get`: returns the C result code together with the produced
value.  On a memory hit the code is the *partition index*; on a disk hit the
entry is promoted with a plain `lru_cache_put` (its result only logged), the
disk copy is evicted unconditionally, and the code is `0`; on a double miss
the code is `-1`. -/
def pod_cache_get (c : pod_cache_t) (key : Bytes) :
    Int × Option Bytes × pod_cache_t :=
  let idx := get_partition (hash key) c.partition_count
  let p := c.partitions.getD idx (lru_cache_create 0)
  match lru_cache_get p key with
  | (some v, p') =>
    ((idx : Int), some v, { c with partitions := c.partitions.set idx p' })
  | (none, _) =>
    match cas_get c.cas_registry key with
    | some v =>
      let p1 := (lru_cache_put p key v).2
      let cas' := (cas_evict c.cas_registry key).2
      (0, some v, { c with partitions := c.partitions.set idx p1, cas_registry := cas' })
    | none => (-1, none, c)

/-- `pod_cache_evict`: try the memory tier, then the disk tier; `1` when a
copy was removed, `0` when the key was absent from both. -/
def pod_cache_evict (c : pod_cache_t) (key : Bytes) : Int × pod_cache_t :=
  let idx := get_partition (hash key) c.partition_count
  let p := c.partitions.getD idx (lru_cache_create 0)
  match lru_cache_evict p key with
  | (true, p') => (1, { c with partitions := c.partitions.set idx p' })
  | (false, _) =>
    match cas_evict c.cas_registry key with
    | (true, cas') => (1, { c with cas_registry := cas' })
    | (false, _) => (0, c)

/-! ## RESP command framing (`src/resp_parser.c`)

The C parser works over a `buffer_t` of `(data, len, pos)`; every helper reads
`data` only at or after `pos`, so the model passes `data : Bytes` and the
absolute position. -/

/-- `buffer_find_crlf` relative to the start of the list: index of the first
`\r\n` pair, scanning adjacent pairs only (the C loop runs `i` from `pos` to
`len - 2`). -/
def findCRLF : Bytes → Option Nat
  | a :: b :: t =>
    if a = 13 ∧ b = 10 then some 0 else (findCRLF (b :: t)).map (· + 1)
  | _ => none

/-- `isspace` on the C locale: space and `\t`, `\n`, `\v`, `\f`, `\r`. -/
def isSpaceByte (c : Nat) : Bool := c = 32 ∨ (9 ≤ c ∧ c ≤ 13)

/-- A decimal digit byte. -/
def isDigitByte (c : Nat) : Bool := 48 ≤ c ∧ c ≤ 57

/-- The greedy digit run of `strtol`: accumulated value and number of digit
bytes consumed. -/
def parseDigits : Bytes → Nat → Nat × Nat
  | [], acc => (acc, 0)
  | c :: t, acc =>
    if isDigitByte c then
      let r := parseDigits t (acc * 10 + (c - 48))
      (r.1, r.2 + 1)
    else (acc, 0)

/-- `strtol(p, &endptr, 10)` on the bytes from `p`: skip `isspace`, an
optional sign, then a greedy digit run.  Returns the value, the offset of
`endptr` from `p` (`0` when no digits were consumed, as in C), and whether
`errno` was set to `ERANGE` (value clamped to the `long` limits). -/
def strtol (l : Bytes) : Int × Nat × Bool :=
  let w := (l.takeWhile isSpaceByte).length
  let rest := l.drop w
  let sgn : Int := if rest.headD 0 = 45 then -1 else 1
  let soff : Nat := if rest.headD 0 = 45 ∨ rest.headD 0 = 43 then 1 else 0
  let r := parseDigits (rest.drop soff) 0
  if r.2 = 0 then (0, 0, false)
  else
    let value : Int := sgn * r.1
    if value > 2 ^ 63 - 1 then (2 ^ 63 - 1, w + soff + r.2, true)
    else if value < -(2 ^ 63) then (-(2 ^ 63), w + soff + r.2, true)
    else (value, w + soff + r.2, false)

/-- Outcome of one parsing helper: the C `PARSE_ERROR` / `PARSE_INCOMPLETE`,
or success with the produced value and the advanced buffer position. -/
inductive PRes (α : Type) where
  | error
  | incomplete
  | ok (v : α) (pos : Nat)
deriving Repr, DecidableEq

/-- `read_integer`: find the next CRLF, bound the digit-span length by `20`,
run `strtol`, and require it to consume exactly up to the CRLF and to fit in
a signed 32-bit `int`. -/
def read_integer (data : Bytes) (pos : Nat) : PRes Int :=
  match findCRLF (data.drop pos) with
  | none => .incomplete
  | some i =>
    if i = 0 ∨ i > 20 then .error
    else
      let r := strtol (data.drop pos)
      if r.2.2 ∨ r.2.1 ≠ i ∨ r.1 < -(2 ^ 31) ∨ r.1 > 2 ^ 31 - 1 then .error
      else .ok r.1 (pos + i + 2)

/-- `buffer_peek`: the byte at `pos`, or `0` past the end. -/
def bufPeek (data : Bytes) (pos : Nat) : Nat := data.getD pos 0

/-- `read_bulk_string`: `$<len>\r\n<bytes>\r\n`, yielding `none` for the null
bulk string (`len = -1`).  The peek guard guarantees `pos < data.length`, so
the clamped `buffer_skip(1)` is exactly `pos + 1`. -/
def read_bulk_string (data : Bytes) (pos : Nat) : PRes (Option Bytes) :=
  if bufPeek data pos ≠ 36 then .error
  else
    match read_integer data (pos + 1) with
    | .error => .error
    | .incomplete => .incomplete
    | .ok strLen p2 =>
      if strLen = -1 then .ok none p2
      else if strLen < 0 ∨ strLen > 1048576 then .error
      else
        let n := strLen.toNat
        if ¬(p2 + (n + 2) ≤ data.length) then .incomplete
        else if data.getD (p2 + n) 0 ≠ 13 ∨ data.getD (p2 + n + 1) 0 ≠ 10 then .error
        else .ok (some ((data.drop p2).take n)) (p2 + n + 2)

/-- The element loop of `resp_parse`: read `n` bulk strings in order. -/
def readElems (data : Bytes) : Nat → Nat → PRes (List (Option Bytes))
  | pos, 0 => .ok [] pos
  | pos, n + 1 =>
    match read_bulk_string data pos with
    | .error => .error
    | .incomplete => .incomplete
    | .ok e p' =>
      match readElems data p' n with
      | .error => .error
      | .incomplete => .incomplete
      | .ok es p'' => .ok (e :: es) p''

/-- Result of `resp_parse`: the C `-1` / `0`, or the consumed byte count with
the command (first element) and argument vector (remaining elements). -/
inductive RespParseResult where
  | error
  | incomplete
  | ok (consumed : Nat) (command : Option Bytes) (args : List (Option Bytes))
deriving Repr, DecidableEq

/-- `resp_parse`: array header `*<n>\r\n` with `n ∈ [1, 100]`, then `n` bulk
strings.  Buffers shorter than `MIN_BUFFER_SIZE = 4` are incomplete. -/
def resp_parse (data : Bytes) : RespParseResult :=
  if data.length < 4 then .incomplete
  else if bufPeek data 0 ≠ 42 then .error
  else
    match read_integer data 1 with
    | .error => .error
    | .incomplete => .incomplete
    | .ok numElements p =>
      if numElements ≤ 0 ∨ numElements > 100 then .error
      else
        match readElems data p numElements.toNat with
        | .error => .error
        | .incomplete => .incomplete
        | .ok es p' => .ok p' (es.headD none) es.tail

/-- The RESP encoding of one bulk string: `$<len>\r\n<bytes>\r\n`. -/
def encBulk (e : Bytes) : Bytes :=
  36 :: decRepr e.length ++ 13 :: 10 :: (e ++ [13, 10])

/-- The RESP encoding of a command frame: `*<n>\r\n` then each element as a
bulk string. -/
def encFrame (elems : List Bytes) : Bytes :=
  42 :: decRepr elems.length ++ 13 :: 10 :: (elems.map encBulk).flatten

/-! ## Command decoding (`src/resp_parser.c`, lines 197-238) -/

/-- `resp_command_e` (the header's enum). -/
inductive resp_command_e where
  | SET
  | GET
  | DEL
  | PING
  | QUIT
  | CLIENT
  | UNKNOW
  | INCR
  | UNLINK
deriving Repr, DecidableEq, BEq

/-- `str_toupper`: ASCII uppercase, byte by byte. -/
def str_toupper (b : Bytes) : Bytes :=
  b.map (fun c => if 97 ≤ c ∧ c ≤ 122 then c - 32 else c)

/-- The parser's `command_table`, in source order.  `UNLINK` is *not* in this
table (even though the enum has `RESP_UNLINK` and the server's dispatch table
maps it to the DEL handler). -/
def command_table : List (Bytes × resp_command_e) :=
  [(ascii "PING", .PING), (ascii "QUIT", .QUIT), (ascii "SET", .SET),
   (ascii "GET", .GET), (ascii "DEL", .DEL), (ascii "CLIENT", .CLIENT),
   (ascii "INCR", .INCR)]

/-- `resp_decode_command`: reject names longer than 32 bytes, uppercase, and
look the name up in `command_table`; anything else is `UNKNOW`. -/
def resp_decode_command (command : Bytes) : resp_command_e :=
  if command.length > 32 then .UNKNOW
  else
    match command_table.find? (fun ent => str_toupper command == ent.1) with
    | some ent => ent.2
    | none => .UNKNOW

/-! ## Connection handlers (`src/server_tcp.c`)

A handler consumes a parsed command and produces one RESP reply plus the new
cache state.  The reply constructors carry the payload only; the wire framing
(`+…\r\n`, `-ERR …\r\n`, `:…\r\n`, `$…\r\n…\r\n`, `$-1\r\n`) is fixed per
constructor.  `send_bulk_string_response` measures the value with `strlen`,
which equals the stored length for the NUL-free values the model works with. -/

/-- One RESP reply, as written by the `send_*_response` helpers. -/
inductive Reply where
  | simple (text : String)
  | error (text : String)
  | integer (val : Int)
  | bulk (payload : Bytes)
  | nullBulk
deriving Repr, DecidableEq

/-- `resp_command_t`: decoded command name and argument vector (the model
restricts to non-null elements, which is all the handlers ever receive from
well-formed clients). -/
structure resp_command_t where
  command : Bytes
  args : List Bytes
deriving Repr, DecidableEq

/-- `handle_ping`: `+PONG`. -/
def handle_ping (cache : pod_cache_t) (_cmd : resp_command_t) : Reply × pod_cache_t :=
  (.simple "PONG", cache)

/-- `handle_set`: needs at least two arguments; stores `args[0] ↦ args[1]`
(any further arguments are never read) and replies `+OK`, or an error reply
when `pod_cache_put` fails. -/
def handle_set (cache : pod_cache_t) (cmd : resp_command_t) : Reply × pod_cache_t :=
  if cmd.args.length < 2 then
    (.error "wrong number of arguments for SET command", cache)
  else
    let key := cmd.args.getD 0 []
    let value := cmd.args.getD 1 []
    match pod_cache_put cache key value with
    | (none, c') => (.error "failed to store value", c')
    | (some _, c') => (.simple "OK", c')

/-- `handle_get`: replies with the bulk value only when `pod_cache_get`
returns exactly `0`; any other result code — including the partition *index*
it returns on a memory hit — is treated as a miss and answered `$-1`. -/
def handle_get (cache : pod_cache_t) (cmd : resp_command_t) : Reply × pod_cache_t :=
  if cmd.args.length < 1 then
    (.error "wrong number of arguments for GET command", cache)
  else
    let key := cmd.args.getD 0 []
    match pod_cache_get cache key with
    | (code, v, c') =>
      if code ≠ 0 then (.nullBulk, c')
      else (.bulk (v.getD []), c')

/-- `handle_del` (also bound to UNLINK in the dispatch table): integer count
of removed copies; `pod_cache_evict` never returns `-1` on a live cache, so
the error branch is unreachable in the model. -/
def handle_del (cache : pod_cache_t) (cmd : resp_command_t) : Reply × pod_cache_t :=
  if cmd.args.length < 1 then
    (.error "wrong number of arguments for DEL or UNLINK command", cache)
  else
    let key := cmd.args.getD 0 []
    match pod_cache_evict cache key with
    | (r, c') => (.integer r, c')

/-- `handle_incr`: any non-zero `pod_cache_get` code (a miss — or a memory
hit in a partition other than 0) re-initialises the key to `"1"`; otherwise
the value is parsed with `strtol` (requiring the whole buffer to be consumed),
incremented and written back in decimal. -/
def handle_incr (cache : pod_cache_t) (cmd : resp_command_t) : Reply × pod_cache_t :=
  if cmd.args.length < 1 then
    (.error "wrong number of arguments for INCR command", cache)
  else
    let key := cmd.args.getD 0 []
    match pod_cache_get cache key with
    | (code, v, c1) =>
      if code ≠ 0 then
        (.integer 1, (pod_cache_put c1 key [49]).2)
      else
        let bytes := v.getD []
        let r := strtol bytes
        if r.2.2 ∨ r.2.1 ≠ bytes.length then
          (.error "value is not an integer or out of range", c1)
        else
          let nv := r.1 + 1
          (.integer nv, (pod_cache_put c1 key (intRepr nv)).2)

/-- `handle_quit`: `+BYE` (the connection is then torn down). -/
def handle_quit (cache : pod_cache_t) (_cmd : resp_command_t) : Reply × pod_cache_t :=
  (.simple "BYE", cache)

/-- `handle_client_cmd`: the CLIENT stub always answers `+OK`. -/
def handle_client_cmd (cache : pod_cache_t) (_cmd : resp_command_t) : Reply × pod_cache_t :=
  (.simple "OK", cache)

/-- The server's `command_handlers` dispatch table, in source order (the
`RESP_UNKNOW` sentinel terminates the walk and is not itself dispatched). -/
def command_handlers :
    List (resp_command_e × (pod_cache_t → resp_command_t → Reply × pod_cache_t)) :=
  [(.PING, handle_ping), (.SET, handle_set), (.GET, handle_get),
   (.QUIT, handle_quit), (.CLIENT, handle_client_cmd), (.INCR, handle_incr),
   (.DEL, handle_del), (.UNLINK, handle_del)]

/-- `dispatch_command`: decode the command name, walk the dispatch table for
a handler of that type, and fall through to `-ERR unknown command`. -/
def dispatch_command (cache : pod_cache_t) (cmd : resp_command_t) : Reply × pod_cache_t :=
  let cmdType := resp_decode_command cmd.command
  match command_handlers.find? (fun h => h.1 == cmdType) with
  | some h => h.2 cache cmd
  | none => (.error "unknown command", cache)

/-! ## Partition operation sequences

Used to state invariants over every state a partition can reach through its
public operations, starting from `lru_cache_create`. -/

/-- One public partition operation. -/
inductive LruOp where
  | putOp (key value : Bytes)
  | getOp (key : Bytes)
  | evictOp (key : Bytes)
  | popTailOp
deriving Repr, DecidableEq

/-- Apply one operation to a partition (the state component of the call). -/
def lruStep (s : lru_cache_t) : LruOp → lru_cache_t
  | .putOp key value => (lru_cache_put s key value).2
  | .getOp key => (lru_cache_get s key).2
  | .evictOp key => (lru_cache_evict s key).2
  | .popTailOp => (lru_cache_remove_tail s).2

/-- Apply a sequence of operations. -/
def lruExec (s : lru_cache_t) (ops : List LruOp) : lru_cache_t :=
  ops.foldl lruStep s

/-- The byte total of the resident entries. -/
def sumSizes (l : List Entry) : Nat := (l.map (fun e => e.value.length)).sum

/-! ## Helper lemmas on the list structures -/

theorem sumSizes_nil : sumSizes [] = 0 := rfl

theorem sumSizes_cons (e : Entry) (l : List Entry) :
    sumSizes (e :: l) = e.value.length + sumSizes l := by
  simp [sumSizes]

/-- Erasing the entry `find?` located removes exactly its bytes from the
total. -/
theorem sumSizes_eraseP_of_find? {l : List Entry} {p : Entry → Bool} {e : Entry}
    (h : l.find? p = some e) :
    sumSizes (l.eraseP p) + e.value.length = sumSizes l := by
  induction l with
  | nil => simp [List.find?] at h
  | cons a t ih =>
    by_cases hp : p a
    · rw [List.find?_cons_of_pos _ hp] at h
      cases h
      rw [List.eraseP_cons_of_pos hp, sumSizes_cons]
      omega
    · rw [List.find?_cons_of_neg _ hp] at h
      rw [List.eraseP_cons_of_neg hp, sumSizes_cons, sumSizes_cons]
      have := ih h
      omega

/-- Dropping the last entry removes exactly its bytes from the total. -/
theorem sumSizes_dropLast_of_getLast? {l : List Entry} {e : Entry}
    (h : l.getLast? = some e) :
    sumSizes l.dropLast + e.value.length = sumSizes l := by
  induction l with
  | nil => simp at h
  | cons a t ih =>
    cases t with
    | nil =>
      simp [List.getLast?] at h
      subst h
      simp [sumSizes]
    | cons b t' =>
      rw [List.getLast?_cons_cons] at h
      have := ih h
      rw [List.dropLast_cons₂, sumSizes_cons, sumSizes_cons]
      omega

/-- The two byte-accounting invariants of a partition. -/
def LruInv (s : lru_cache_t) : Prop :=
  s.current_bytes_size = sumSizes s.entries ∧
  s.current_bytes_size ≤ s.max_bytes_capacity

/-- Every operation leaves the byte capacity untouched. -/
theorem lruStep_capacity (s : lru_cache_t) (op : LruOp) :
    (lruStep s op).max_bytes_capacity = s.max_bytes_capacity := by
  cases op with
  | putOp key value =>
    simp only [lruStep, lru_cache_put]
    split
    · rfl
    · split <;> rfl
  | getOp key =>
    simp only [lruStep, lru_cache_get]
    split <;> rfl
  | evictOp key =>
    simp only [lruStep, lru_cache_evict]
    split <;> rfl
  | popTailOp =>
    simp only [lruStep, lru_cache_remove_tail]
    split <;> rfl

/-- One operation preserves the byte-accounting invariants. -/
theorem lruStep_inv {s : lru_cache_t} (op : LruOp) (h : LruInv s) :
    LruInv (lruStep s op) := by
  obtain ⟨hsum, hcap⟩ := h
  cases op with
  | putOp key value =>
    simp only [lruStep, lru_cache_put]
    split
    · exact ⟨hsum, hcap⟩
    · rename_i hfit
      split
      · rename_i e hfind
        have herase := sumSizes_eraseP_of_find? hfind
        constructor
        · simp only [sumSizes_cons]
          omega
        · simp only []
          omega
      · constructor
        · simp only [sumSizes_cons]
          omega
        · simp only []
          omega
  | getOp key =>
    simp only [lruStep, lru_cache_get]
    split
    · rename_i e hfind
      have herase := sumSizes_eraseP_of_find? hfind
      refine ⟨?_, hcap⟩
      simp only [sumSizes_cons]
      omega
    · exact ⟨hsum, hcap⟩
  | evictOp key =>
    simp only [lruStep, lru_cache_evict]
    split
    · rename_i e hfind
      have herase := sumSizes_eraseP_of_find? hfind
      have hle : e.value.length ≤ sumSizes s.entries := by omega
      constructor
      · simp only []
        omega
      · simp only []
        omega
    · exact ⟨hsum, hcap⟩
  | popTailOp =>
    simp only [lruStep, lru_cache_remove_tail]
    split
    · exact ⟨hsum, hcap⟩
    · rename_i e hlast
      have hdrop := sumSizes_dropLast_of_getLast? hlast
      constructor
      · simp only []
        omega
      · simp only []
        omega

/-! ## Claim theorems -/

/-- Claim C7: starting from the empty partition built by `lru_cache_create`,
after every sequence of completed partition operations (`put`, `get`,
`evict`, `pop_tail`) the byte counter equals the sum of the resident entry
sizes and stays within the byte capacity. -/
theorem lru_invariant_reachable (cap : Nat) (ops : List LruOp) :
    (lruExec (lru_cache_create cap) ops).current_bytes_size
      = sumSizes (lruExec (lru_cache_create cap) ops).entries ∧
    (lruExec (lru_cache_create cap) ops).current_bytes_size
      ≤ (lruExec (lru_cache_create cap) ops).max_bytes_capacity := by
  have main : ∀ (l : List LruOp) (s : lru_cache_t), LruInv s → LruInv (lruExec s l) := by
    intro l
    induction l with
    | nil => intro s h; exact h
    | cons op t ih => intro s h; exact ih (lruStep s op) (lruStep_inv op h)
  exact main ops (lru_cache_create cap) ⟨rfl, Nat.zero_le _⟩

/-- Claim C1 (failing input): on a cache with two partitions, the key `"b"`
(byte `98`) hashes to partition 1.  `SET b x` succeeds with `+OK` and the
entry is resident in that partition, yet the immediately following `GET b`
replies `$-1`: `handle_get` treats the non-zero success code of
`pod_cache_get` — the partition *index* — as a miss. -/
theorem set_get_partition_index_bug :
    (handle_set (pod_cache_create 1000 2) ⟨ascii "SET", [[98], [120]]⟩).1
      = Reply.simple "OK" ∧
    lruFind (selectedPartition
        (handle_set (pod_cache_create 1000 2) ⟨ascii "SET", [[98], [120]]⟩).2 [98]) [98]
      = some ⟨[98], [120]⟩ ∧
    (handle_get (handle_set (pod_cache_create 1000 2) ⟨ascii "SET", [[98], [120]]⟩).2
        ⟨ascii "GET", [[98]]⟩).1 = Reply.nullBulk := by
  decide

/-- Claim C2 (failing input): one partition of capacity 10 holding a 5-byte
entry for key `"2"`, and a 6-byte disk copy for key `"1"`.  The coordinator
`get` of `"1"` succeeds (code 0, the stored bytes), but the promotion
`lru_cache_put` overflows (5 + 6 ≥ 10) and is not retried under the spill
protocol, while the disk copy is evicted regardless — afterwards the entry
exists in neither tier. -/
theorem get_promotion_drops_entry :
    (pod_cache_get
        ⟨10, 1, [⟨10, 17, [⟨[50], [1, 2, 3, 4, 5]⟩], 5⟩],
          ⟨[([49], [9, 9, 9, 9, 9, 9])]⟩⟩ [49]).1 = 0 ∧
    (pod_cache_get
        ⟨10, 1, [⟨10, 17, [⟨[50], [1, 2, 3, 4, 5]⟩], 5⟩],
          ⟨[([49], [9, 9, 9, 9, 9, 9])]⟩⟩ [49]).2.1 = some [9, 9, 9, 9, 9, 9] ∧
    lruFind (selectedPartition
        (pod_cache_get
          ⟨10, 1, [⟨10, 17, [⟨[50], [1, 2, 3, 4, 5]⟩], 5⟩],
            ⟨[([49], [9, 9, 9, 9, 9, 9])]⟩⟩ [49]).2.2 [49]) [49] = none ∧
    cas_get (pod_cache_get
        ⟨10, 1, [⟨10, 17, [⟨[50], [1, 2, 3, 4, 5]⟩], 5⟩],
          ⟨[([49], [9, 9, 9, 9, 9, 9])]⟩⟩ [49]).2.2.cas_registry [49] = none := by
  decide

/-- Claim C5: `UNLINK` (any case) is decoded to `UNKNOW` — the parser's
`command_table` has no UNLINK row even though the dispatch table binds
`RESP_UNLINK` to the DEL handler — so dispatch falls through to the
`-ERR unknown command` reply for every cache state and argument vector. -/
theorem unlink_command_unrecognized (cache : pod_cache_t) (args : List Bytes) :
    resp_decode_command (ascii "UNLINK") = resp_command_e.UNKNOW ∧
    dispatch_command cache ⟨ascii "UNLINK", args⟩ = (Reply.error "unknown command", cache) ∧
    dispatch_command cache ⟨ascii "unlink", args⟩ = (Reply.error "unknown command", cache) :=
  ⟨by decide, rfl, rfl⟩

/-- Claim C10: a SET frame with extra arguments behaves exactly like the
two-argument SET of its first two arguments: the handler never reads past
`args[1]`. -/
theorem set_extra_args_ignored (cache : pod_cache_t) (name a0 a1 : Bytes)
    (rest : List Bytes) :
    handle_set cache ⟨name, a0 :: a1 :: rest⟩ = handle_set cache ⟨name, [a0, a1]⟩ := by
  simp [handle_set]

/-- Claim C3 (counterexample): capacity 10, resident entries of 4 + 4 bytes,
new 7-byte value.  The value fits an empty partition (the first conjunct),
and two tail evictions would make room, but the coordinator retries only
once after a single spill, so the put fails. -/
theorem put_two_evictions_needed_fails :
    (lru_cache_put (lru_cache_create 10) [51] [7, 7, 7, 7, 7, 7, 7]).1
      = LruPutResult.ok ∧
    (pod_cache_put
        ⟨10, 1, [⟨10, 17, [⟨[50], [1, 1, 1, 1]⟩, ⟨[49], [2, 2, 2, 2]⟩], 8⟩], ⟨[]⟩⟩
        [51] [7, 7, 7, 7, 7, 7, 7]).1 = none := by
  decide

/-- Claim C4 (counterexample): capacity 10 with a resident 3-byte entry; a
SET of an 11-byte value fails with the storage error, but the partition's
byte count drops from 3 to 0 — the LRU tail was spilled to disk before the
retry failed — rather than staying unchanged. -/
theorem oversized_set_changes_byte_count :
    (handle_set ⟨10, 1, [⟨10, 17, [⟨[49], [3, 3, 3]⟩], 3⟩], ⟨[]⟩⟩
        ⟨ascii "SET", [[50], [1, 2, 3, 4, 5, 6, 7, 8, 9, 10, 11]]⟩).1
      = Reply.error "failed to store value" ∧
    (selectedPartition
        (handle_set ⟨10, 1, [⟨10, 17, [⟨[49], [3, 3, 3]⟩], 3⟩], ⟨[]⟩⟩
          ⟨ascii "SET", [[50], [1, 2, 3, 4, 5, 6, 7, 8, 9, 10, 11]]⟩).2 [50]).current_bytes_size
      = 0 := by
  decide

/-- Claim C6 (counterexample): capacity 10, key `"1"` resident with a 5-byte
value.  A put of a 6-byte value for the *same existing* key returns the
overflow outcome (5 + 6 ≥ 10): the capacity check precedes the existence
check, so overflow is not reserved for absent keys. -/
theorem update_existing_key_returns_overflow :
    (lru_cache_put ⟨10, 17, [⟨[49], [5, 5, 5, 5, 5]⟩], 5⟩ [49] [6, 6, 6, 6, 6, 6]).1
      = LruPutResult.overflow ∧
    lruFind ⟨10, 17, [⟨[49], [5, 5, 5, 5, 5]⟩], 5⟩ [49] = some ⟨[49], [5, 5, 5, 5, 5]⟩ := by
  decide

/-- Claim C9 (counterexample): for capacity 0 the computed power-of-two size
is 16, but the partition allocates and indexes `16 + 1 = 17` buckets — an odd
number, hence not a power of two. -/
theorem hash_table_buckets_not_pow2 :
    (lru_cache_create 0).hash_table_size = 17 ∧
    calculate_hash_table_size 0 = 16 ∧
    (lru_cache_create 0).hash_table_size % 2 = 1 := by
  decide

/-- Reading back the key just written to the CAS store yields its value. -/
theorem cas_get_put_self (r : cas_registry_t) (key value : Bytes) :
    cas_get (cas_put r key value) key = some value := by
  simp [cas_get, cas_put, List.find?_cons]

/-- `getD` after `set` at an in-range index returns the written element. -/
theorem getD_set_self (l : List lru_cache_t) (i : Nat) (a d : lru_cache_t)
    (h : i < l.length) :
    (l.set i a).getD i d = a := by
  simp [List.getD, List.getElem?_set_self h]

/-- Claim C6 (amended): the overflow outcome of `lru_cache_put` is returned
exactly when `current_bytes + value.size ≥ capacity`, whether or not the key
exists (the capacity check precedes the existence check); below that bound a
put on an existing key replaces the value bytes, adjusts `current_bytes` by
the size delta, and moves the node to the head of the recency order. -/
theorem lru_put_update_semantics (s : lru_cache_t) (key value : Bytes) :
    ((lru_cache_put s key value).1 = LruPutResult.overflow ↔
      s.max_bytes_capacity ≤ s.current_bytes_size + value.length) ∧
    (∀ e, s.entries.find? (fun x => x.key == key) = some e →
      s.current_bytes_size + value.length < s.max_bytes_capacity →
      lru_cache_put s key value =
        (LruPutResult.ok,
         { s with
           entries := ⟨e.key, value⟩ :: s.entries.eraseP (fun x => x.key == key)
           current_bytes_size :=
             s.current_bytes_size + value.length - e.value.length })) := by
  refine ⟨⟨?_, ?_⟩, ?_⟩
  · intro h
    by_contra hlt
    rw [not_le] at hlt
    rw [lru_cache_put, if_neg (by omega)] at h
    rcases hfind : s.entries.find? (fun x => x.key == key) with _ | e <;>
      simp [hfind] at h
  · intro hle
    rw [lru_cache_put, if_pos hle]
  · intro e hfind hlt
    rw [lru_cache_put, if_neg (by omega), hfind]

/-- Claim C6 (witness): updating the resident 2-byte value of key `"1"` with
a 3-byte value in a capacity-10 partition succeeds, replaces the bytes and
adjusts the counter from 2 to 3. -/
theorem lru_put_update_semantics_witness :
    lru_cache_put ⟨10, 17, [⟨[49], [5, 5]⟩], 2⟩ [49] [7, 7, 7]
      = (LruPutResult.ok, ⟨10, 17, [⟨[49], [7, 7, 7]⟩], 3⟩) :=
  (lru_put_update_semantics ⟨10, 17, [⟨[49], [5, 5]⟩], 2⟩ [49] [7, 7, 7]).2
    ⟨[49], [5, 5]⟩ (by decide) (by decide)

/-- Claim C3 (amended): when the first partition put overflows and the
partition is non-empty, the coordinator spills exactly the LRU tail to the
CAS store, pops it, and retries once: the put succeeds precisely when the
value now fits, and otherwise fails with the spill already performed — it
never evicts a second entry, even when doing so would make room. -/
theorem pod_put_single_spill (c : pod_cache_t) (key value : Bytes) (tail : Entry)
    (hover : (selectedPartition c key).max_bytes_capacity ≤
      (selectedPartition c key).current_bytes_size + value.length)
    (htail : (selectedPartition c key).entries.getLast? = some tail) :
    ((lru_cache_remove_tail (selectedPartition c key)).2.current_bytes_size + value.length
        < (selectedPartition c key).max_bytes_capacity →
      pod_cache_put c key value =
        (some (get_partition (hash key) c.partition_count),
         { c with
           partitions := c.partitions.set (get_partition (hash key) c.partition_count)
             (lru_cache_put (lru_cache_remove_tail (selectedPartition c key)).2 key value).2
           cas_registry := cas_put c.cas_registry tail.key tail.value })) ∧
    ((selectedPartition c key).max_bytes_capacity ≤
        (lru_cache_remove_tail (selectedPartition c key)).2.current_bytes_size + value.length →
      pod_cache_put c key value =
        (none,
         { c with
           partitions := c.partitions.set (get_partition (hash key) c.partition_count)
             (lru_cache_remove_tail (selectedPartition c key)).2
           cas_registry := cas_put c.cas_registry tail.key tail.value })) := by
  have hcap1 : (lru_cache_remove_tail (selectedPartition c key)).2.max_bytes_capacity
      = (selectedPartition c key).max_bytes_capacity := by
    rw [lru_cache_remove_tail, htail]
  have h1 : lru_cache_put (selectedPartition c key) key value
      = (.overflow, selectedPartition c key) := by
    rw [lru_cache_put, if_pos hover]
  have htailnode : lru_cache_get_tail_node (selectedPartition c key) = some tail := htail
  constructor
  · intro hfit
    have h2 : (lru_cache_put (lru_cache_remove_tail (selectedPartition c key)).2 key value).1
        = LruPutResult.ok := by
      rw [lru_cache_put, if_neg (by omega)]
      rcases hfind : (lru_cache_remove_tail (selectedPartition c key)).2.entries.find?
          (fun x => x.key == key) with _ | e <;> simp [hfind]
    rw [pod_cache_put]
    rw [show c.partitions.getD (get_partition (hash key) c.partition_count) (lru_cache_create 0)
        = selectedPartition c key from rfl]
    simp only [h1, htailnode]
    rcases hsplit : lru_cache_put (lru_cache_remove_tail (selectedPartition c key)).2 key value
      with ⟨r, p2⟩
    rw [hsplit] at h2
    simp only [] at h2
    subst h2
    rfl
  · intro hnofit
    have h2 : lru_cache_put (lru_cache_remove_tail (selectedPartition c key)).2 key value
        = (.overflow, (lru_cache_remove_tail (selectedPartition c key)).2) := by
      rw [lru_cache_put, if_pos (by omega)]
    rw [pod_cache_put]
    rw [show c.partitions.getD (get_partition (hash key) c.partition_count) (lru_cache_create 0)
        = selectedPartition c key from rfl]
    simp only [h1, htailnode, h2]

/-- Claim C3 (witness): capacity 10 holding 4 + 4 bytes; a 5-byte put spills
the single LRU tail and then fits, landing the new key at the head with the
spilled entry on disk. -/
theorem pod_put_single_spill_witness :
    pod_cache_put
        ⟨10, 1, [⟨10, 17, [⟨[50], [1, 1, 1, 1]⟩, ⟨[49], [2, 2, 2, 2]⟩], 8⟩], ⟨[]⟩⟩
        [51] [5, 5, 5, 5, 5]
      = (some 0,
         ⟨10, 1, [⟨10, 17, [⟨[51], [5, 5, 5, 5, 5]⟩, ⟨[50], [1, 1, 1, 1]⟩], 9⟩],
           ⟨[([49], [2, 2, 2, 2])]⟩⟩) :=
  (pod_put_single_spill
      ⟨10, 1, [⟨10, 17, [⟨[50], [1, 1, 1, 1]⟩, ⟨[49], [2, 2, 2, 2]⟩], 8⟩], ⟨[]⟩⟩
      [51] [5, 5, 5, 5, 5] ⟨[49], [2, 2, 2, 2]⟩ (by decide) (by decide)).1 (by decide)

/-- Claim C4 (amended): a SET whose value exceeds the selected partition's
capacity fails with the storage-error reply and never inserts the new key;
the partition is unchanged only when it was empty — otherwise the LRU tail
has been spilled to the disk tier and removed, so the byte count drops by
the tail's size. -/
theorem oversized_set_fails (c : pod_cache_t) (key value : Bytes) (rest : List Bytes)
    (hcnt : c.partitions.length = c.partition_count) (hpos : 0 < c.partition_count)
    (hbig : (selectedPartition c key).max_bytes_capacity < value.length) :
    (handle_set c ⟨ascii "SET", key :: value :: rest⟩).1
      = Reply.error "failed to store value" ∧
    ((selectedPartition c key).entries = [] →
      (handle_set c ⟨ascii "SET", key :: value :: rest⟩).2 = c) ∧
    (∀ tail, (selectedPartition c key).entries.getLast? = some tail →
      (selectedPartition (handle_set c ⟨ascii "SET", key :: value :: rest⟩).2 key).entries
          = (selectedPartition c key).entries.dropLast ∧
      (selectedPartition (handle_set c ⟨ascii "SET", key :: value :: rest⟩).2
            key).current_bytes_size
          = (selectedPartition c key).current_bytes_size - tail.value.length ∧
      cas_get (handle_set c ⟨ascii "SET", key :: value :: rest⟩).2.cas_registry tail.key
          = some tail.value) := by
  have hidx : get_partition (hash key) c.partition_count < c.partitions.length := by
    rw [hcnt]
    exact Nat.mod_lt _ hpos
  have h1 : lru_cache_put (selectedPartition c key) key value
      = (.overflow, selectedPartition c key) := by
    rw [lru_cache_put, if_pos (by omega)]
  have hput : pod_cache_put c key value = (none,
      match (selectedPartition c key).entries.getLast? with
      | none => c
      | some tail =>
        { c with
          partitions := c.partitions.set (get_partition (hash key) c.partition_count)
            (lru_cache_remove_tail (selectedPartition c key)).2
          cas_registry := cas_put c.cas_registry tail.key tail.value }) := by
    rcases hlast : (selectedPartition c key).entries.getLast? with _ | tail
    · rw [pod_cache_put]
      rw [show c.partitions.getD (get_partition (hash key) c.partition_count) (lru_cache_create 0)
          = selectedPartition c key from rfl]
      simp only [h1, show lru_cache_get_tail_node (selectedPartition c key) = none from hlast]
    · have hcap1 : (lru_cache_remove_tail (selectedPartition c key)).2.max_bytes_capacity
          = (selectedPartition c key).max_bytes_capacity := by
        rw [lru_cache_remove_tail, hlast]
      have h2 : lru_cache_put (lru_cache_remove_tail (selectedPartition c key)).2 key value
          = (.overflow, (lru_cache_remove_tail (selectedPartition c key)).2) := by
        rw [lru_cache_put, if_pos (by omega)]
      rw [pod_cache_put]
      rw [show c.partitions.getD (get_partition (hash key) c.partition_count) (lru_cache_create 0)
          = selectedPartition c key from rfl]
      simp only [h1, show lru_cache_get_tail_node (selectedPartition c key) = some tail from hlast,
        h2]
  have hargs : ¬ (key :: value :: rest).length < 2 := by
    simp
  refine ⟨?_, ?_, ?_⟩
  · rw [handle_set]
    simp only [hargs, if_false, List.getD_cons_zero, List.getD_cons_succ, hput]
  · intro hempty
    rw [handle_set]
    simp only [hargs, if_false, List.getD_cons_zero, List.getD_cons_succ, hput, hempty,
      List.getLast?_nil]
  · intro tail hlast
    rw [handle_set]
    simp only [hargs, if_false, List.getD_cons_zero, List.getD_cons_succ, hput, hlast]
    have hsel : selectedPartition
        { c with
          partitions := c.partitions.set (get_partition (hash key) c.partition_count)
            (lru_cache_remove_tail (selectedPartition c key)).2
          cas_registry := cas_put c.cas_registry tail.key tail.value } key
        = (lru_cache_remove_tail (selectedPartition c key)).2 := by
      rw [selectedPartition]
      exact getD_set_self _ _ _ _ hidx
    rw [hsel, lru_cache_remove_tail, hlast]
    exact ⟨rfl, rfl, cas_get_put_self _ _ _⟩

/-- Claim C4 (witness): capacity 10 holding one 3-byte entry; an 11-byte SET
replies with the storage error, leaves the partition holding no entries
(3 − 3 bytes), and the spilled tail is on disk. -/
theorem oversized_set_fails_witness :
    (handle_set ⟨10, 1, [⟨10, 17, [⟨[49], [3, 3, 3]⟩], 3⟩], ⟨[]⟩⟩
        ⟨ascii "SET", [[50], [1, 2, 3, 4, 5, 6, 7, 8, 9, 10, 11]]⟩).1
      = Reply.error "failed to store value" ∧
    (selectedPartition
        (handle_set ⟨10, 1, [⟨10, 17, [⟨[49], [3, 3, 3]⟩], 3⟩], ⟨[]⟩⟩
          ⟨ascii "SET", [[50], [1, 2, 3, 4, 5, 6, 7, 8, 9, 10, 11]]⟩).2 [50]).entries = [] ∧
    cas_get (handle_set ⟨10, 1, [⟨10, 17, [⟨[49], [3, 3, 3]⟩], 3⟩], ⟨[]⟩⟩
        ⟨ascii "SET", [[50], [1, 2, 3, 4, 5, 6, 7, 8, 9, 10, 11]]⟩).2.cas_registry [49]
      = some [3, 3, 3] := by
  have h := oversized_set_fails ⟨10, 1, [⟨10, 17, [⟨[49], [3, 3, 3]⟩], 3⟩], ⟨[]⟩⟩
    [50] [1, 2, 3, 4, 5, 6, 7, 8, 9, 10, 11] [] (by decide) (by decide) (by decide)
  obtain ⟨hr, -, htail⟩ := h
  obtain ⟨he, -, hc⟩ := htail ⟨[49], [3, 3, 3]⟩ (by decide)
  exact ⟨hr, by rw [he]; decide, hc⟩

/-- The doubling loop keeps the size a power of two in `[16, 65536]`, stops
at or past the target unless clamped at `65536`, and never overshoots: the
result is `16` or its half is below the target. -/
theorem htLoop_props (fuel : Nat) : ∀ (size target : Nat), (∃ j, size = 2 ^ j) →
    16 ≤ size → size ≤ 65536 → 65536 ≤ size * 2 ^ fuel →
    (size = 16 ∨ size / 2 < target) →
    (∃ k, htLoop fuel size target = 2 ^ k) ∧
    16 ≤ htLoop fuel size target ∧ htLoop fuel size target ≤ 65536 ∧
    (target ≤ htLoop fuel size target ∨ htLoop fuel size target = 65536) ∧
    (htLoop fuel size target = 16 ∨ htLoop fuel size target / 2 < target) := by
  induction fuel with
  | zero =>
    intro size target hpow h16 hle hfuel hmin
    have hsz : size = 65536 := by
      simp only [pow_zero, Nat.mul_one] at hfuel
      omega
    subst hsz
    exact ⟨hpow, h16, le_refl _, Or.inr rfl, hmin⟩
  | succ fuel ih =>
    intro size target hpow h16 hle hfuel hmin
    by_cases hguard : size < target ∧ size < 65536
    · rw [htLoop, if_pos hguard]
      obtain ⟨j, hj⟩ := hpow
      have hj16 : j < 16 := by
        rw [← Nat.pow_lt_pow_iff_right (a := 2) (by norm_num)]
        omega
      refine ih (2 * size) target ⟨j + 1, by rw [pow_succ]; omega⟩ (by omega) ?_ ?_ ?_
      · have : (2 : Nat) ^ (j + 1) ≤ 2 ^ 16 :=
          Nat.pow_le_pow_right (by norm_num) (by omega)
        rw [hj, ← pow_succ']
        simpa using this
      · have hexp : size * 2 ^ (fuel + 1) = 2 * size * 2 ^ fuel := by ring
        omega
      · right
        omega
    · rw [htLoop, if_neg hguard]
      rw [Classical.not_and_iff_or_not_not, not_lt, not_lt] at hguard
      exact ⟨hpow, h16, hle, by omega, hmin⟩

/-! ### RESP round-trip lemmas (claim C8) -/

theorem isDigitByte_true {c : Nat} (h1 : 48 ≤ c) (h2 : c ≤ 57) : isDigitByte c = true := by
  simp [isDigitByte]
  omega

theorem isDigitByte_false {c : Nat} (h : c < 48 ∨ 57 < c) : isDigitByte c = false := by
  simp [isDigitByte]
  omega

theorem isSpaceByte_of_digit {c : Nat} (h1 : 48 ≤ c) : isSpaceByte c = false := by
  simp [isSpaceByte]
  omega

/-- Every byte of a decimal rendering is an ASCII digit. -/
theorem decRepr_mem_digit {n : Nat} : ∀ c ∈ decRepr n, 48 ≤ c ∧ c ≤ 57 := by
  intro c hc
  rw [decRepr] at hc
  split at hc
  · simp at hc
    omega
  · simp only [List.mem_map, List.mem_reverse] at hc
    obtain ⟨d, hd, rfl⟩ := hc
    have := Nat.digits_lt_base (by norm_num) hd
    omega

theorem decRepr_ne_nil (n : Nat) : decRepr n ≠ [] := by
  rw [decRepr]
  split
  · simp
  · rename_i hn
    simp only [ne_eq, List.map_eq_nil_iff, List.reverse_eq_nil_iff]
    exact Nat.digits_ne_nil_iff_ne_zero.mpr hn

theorem decRepr_length_le {n k : Nat} (h : n < 10 ^ k) (hk : 1 ≤ k) :
    (decRepr n).length ≤ k := by
  rw [decRepr]
  split
  · simpa using hk
  · rename_i hn
    simp only [List.length_map, List.length_reverse]
    rw [Nat.digits_len 10 n (by norm_num) hn]
    have := (Nat.lt_pow_iff_log_lt (by norm_num) hn).mp h
    omega

/-- On a digit run followed by CRLF, the scan stops exactly at the CR. -/
theorem findCRLF_digits : ∀ (ds : Bytes) (rest : Bytes),
    (∀ c ∈ ds, 48 ≤ c ∧ c ≤ 57) →
    findCRLF (ds ++ 13 :: 10 :: rest) = some ds.length := by
  intro ds
  induction ds with
  | nil =>
    intro rest _
    rw [List.nil_append, findCRLF]
    simp
  | cons d ds ih =>
    intro rest hds
    have hd : 48 ≤ d ∧ d ≤ 57 := hds d (by simp)
    cases ds with
    | nil =>
      rw [List.cons_append, List.nil_append, findCRLF, if_neg (by omega), findCRLF]
      simp
    | cons d2 ds' =>
      have hd2 : 48 ≤ d2 ∧ d2 ≤ 57 := hds d2 (by simp)
      rw [List.cons_append, List.cons_append, findCRLF, if_neg (by omega)]
      rw [← List.cons_append, ih rest (fun c hc => hds c (by simp at hc ⊢; tauto))]
      simp

/-- A digit run stopped by a non-digit accumulates left-to-right. -/
theorem parseDigits_append : ∀ (ds : Bytes) (acc : Nat) (c : Nat) (rest : Bytes),
    (∀ x ∈ ds, isDigitByte x) → isDigitByte c = false →
    parseDigits (ds ++ c :: rest) acc
      = (ds.foldl (fun a d => a * 10 + (d - 48)) acc, ds.length) := by
  intro ds
  induction ds with
  | nil =>
    intro acc c rest _ hc
    rw [List.nil_append, parseDigits]
    simp [hc]
  | cons d ds ih =>
    intro acc c rest hds hc
    have hd : isDigitByte d = true := hds d (by simp)
    rw [List.cons_append, parseDigits, if_pos hd]
    rw [ih (acc * 10 + (d - 48)) c rest (fun x hx => hds x (by simp [hx])) hc]
    simp

/-- Folding the big-endian digit bytes reconstructs the number. -/
theorem foldl_reverse_digits (l : List Nat) (acc : Nat) :
    l.reverse.foldl (fun a d => a * 10 + d) acc
      = acc * 10 ^ l.length + Nat.ofDigits 10 l := by
  induction l generalizing acc with
  | nil => simp [Nat.ofDigits_nil]
  | cons d t ih =>
    rw [List.reverse_cons, List.foldl_append, ih]
    simp only [List.foldl_cons, List.foldl_nil, Nat.ofDigits_cons, List.length_cons]
    rw [pow_succ]
    ring

theorem foldl_decRepr (n : Nat) :
    (decRepr n).foldl (fun a d => a * 10 + (d - 48)) 0 = n := by
  rw [decRepr]
  split
  · rename_i hn
    subst hn
    simp
  · rw [List.foldl_map]
    have hfun : (fun (a : Nat) (x : Nat) => a * 10 + (x + 48 - 48))
        = fun (a : Nat) (x : Nat) => a * 10 + x := by
      funext a x
      omega
    calc (Nat.digits 10 n).reverse.foldl (fun a x => a * 10 + (x + 48 - 48)) 0
        = (Nat.digits 10 n).reverse.foldl (fun a d => a * 10 + d) 0 := by rw [hfun]
      _ = 0 * 10 ^ (Nat.digits 10 n).length + Nat.ofDigits 10 (Nat.digits 10 n) :=
          foldl_reverse_digits _ 0
      _ = n := by simp [Nat.ofDigits_digits]

/-- `strtol` on a decimal rendering followed by a CR consumes exactly the
digit run and produces the rendered number. -/
theorem strtol_decRepr (n : Nat) (rest : Bytes) (hn : (n : Int) ≤ 2 ^ 63 - 1) :
    strtol (decRepr n ++ 13 :: rest) = ((n : Int), (decRepr n).length, false) := by
  obtain ⟨d, ds, hds⟩ : ∃ d ds, decRepr n = d :: ds := by
    cases h : decRepr n with
    | nil => exact absurd h (decRepr_ne_nil n)
    | cons d ds => exact ⟨d, ds, rfl⟩
  have hd48 : 48 ≤ d ∧ d ≤ 57 := decRepr_mem_digit d (by rw [hds]; simp)
  have hparse : parseDigits (decRepr n ++ 13 :: rest) 0 = (n, (decRepr n).length) := by
    rw [parseDigits_append (decRepr n) 0 13 rest
      (fun x hx => isDigitByte_true (decRepr_mem_digit x hx).1 (decRepr_mem_digit x hx).2)
      (isDigitByte_false (by omega))]
    rw [foldl_decRepr]
  have hlen0 : (decRepr n).length ≠ 0 := by
    simpa [List.length_eq_zero] using decRepr_ne_nil n
  have h45 : ¬ (d = 45) := by omega
  have h4543 : ¬ (d = 45 ∨ d = 43) := by omega
  have hgt : ¬ ((n : Int) > 2 ^ 63 - 1) := by omega
  have hlt : ¬ ((n : Int) < -2 ^ 63) := by omega
  rw [strtol]
  rw [hds, List.cons_append, List.takeWhile_cons_of_neg (by
    rw [isSpaceByte_of_digit hd48.1]
    simp)]
  simp only [List.length_nil, List.drop_zero, List.headD_cons, if_neg h45, if_neg h4543]
  rw [← List.cons_append, ← hds, hparse]
  simp [hlen0, hgt, hlt]
  rw [if_neg (by omega : ¬ (9223372036854775807 < n))]
  rw [if_neg (by omega : ¬ ((n : Int) < -9223372036854775808))]

/-- `read_integer` on a decimal rendering terminated by CRLF. -/
theorem read_integer_decRepr (data : Bytes) (pos : Nat) (n : Nat) (rest : Bytes)
    (hdrop : data.drop pos = decRepr n ++ 13 :: 10 :: rest)
    (hlen : (decRepr n).length ≤ 20)
    (hn : (n : Int) ≤ 2 ^ 31 - 1) :
    read_integer data pos = .ok (n : Int) (pos + (decRepr n).length + 2) := by
  have hlen0 : (decRepr n).length ≠ 0 := by
    simpa [List.length_eq_zero] using decRepr_ne_nil n
  rw [read_integer, hdrop]
  rw [findCRLF_digits (decRepr n) rest (fun c hc => decRepr_mem_digit c hc)]
  simp only []
  rw [if_neg (by omega : ¬ ((decRepr n).length = 0 ∨ (decRepr n).length > 20))]
  rw [strtol_decRepr n (10 :: rest) (by omega)]
  have h1 : ¬ ((n : Int) < -(2 ^ 31)) := by omega
  have h2 : ¬ ((n : Int) > 2 ^ 31 - 1) := by omega
  simp [h1, h2]
  omega

theorem getD_drop_eq (data : Bytes) (pos k : Nat) :
    data.getD (pos + k) 0 = (data.drop pos).getD k 0 := by
  simp [List.getD_eq_getElem?_getD, List.getElem?_drop]

/-- `read_bulk_string` on an encoded bulk string (possibly followed by more
bytes) consumes exactly the encoding and yields the payload. -/
theorem read_bulk_enc (data : Bytes) (pos : Nat) (e : Bytes) (rest : Bytes)
    (hdrop : data.drop pos = encBulk e ++ rest)
    (he : e.length ≤ 1048576) :
    read_bulk_string data pos = .ok (some e) (pos + (encBulk e).length) := by
  have hlen20 : (decRepr e.length).length ≤ 20 :=
    decRepr_length_le (lt_of_le_of_lt he (by norm_num)) (by norm_num)
  have hpeek : bufPeek data pos = 36 := by
    rw [bufPeek, show pos = pos + 0 from rfl, getD_drop_eq, hdrop]
    simp [encBulk]
  have hdrop1 : data.drop (pos + 1)
      = decRepr e.length ++ 13 :: 10 :: (e ++ 13 :: 10 :: rest) := by
    rw [← List.drop_drop, hdrop]
    simp [encBulk]
  have hdrop2 : data.drop (pos + 1 + (decRepr e.length).length + 2)
      = e ++ 13 :: 10 :: rest := by
    rw [show pos + 1 + (decRepr e.length).length + 2
        = pos + 1 + ((decRepr e.length).length + 2) from by omega]
    rw [← List.drop_drop, hdrop1]
    rw [show decRepr e.length ++ 13 :: 10 :: (e ++ 13 :: 10 :: rest)
        = (decRepr e.length ++ [13, 10]) ++ (e ++ 13 :: 10 :: rest) from by simp]
    rw [show (decRepr e.length).length + 2 = (decRepr e.length ++ [13, 10]).length from by simp]
    exact List.drop_left _ _
  have hlendata : data.length = pos + 1 + (decRepr e.length).length + 2
      + (e.length + (2 + rest.length)) := by
    have := congrArg List.length hdrop2
    simp only [List.length_drop, List.length_append, List.length_cons] at this
    omega
  rw [read_bulk_string, hpeek]
  rw [if_neg (by omega : ¬ ((36 : Nat) ≠ 36))]
  rw [read_integer_decRepr data (pos + 1) e.length (e ++ 13 :: 10 :: rest) hdrop1 hlen20
    (by omega)]
  simp only []
  rw [if_neg (by omega : ¬ ((e.length : Int) = -1))]
  rw [if_neg (by omega : ¬ (((e.length : Int)) < 0 ∨ ((e.length : Int)) > 1048576))]
  rw [show ((e.length : Int)).toNat = e.length from Int.toNat_natCast _]
  rw [if_neg (by omega :
    ¬ ¬ (pos + 1 + (decRepr e.length).length + 2 + (e.length + 2) ≤ data.length))]
  have hcr : data.getD (pos + 1 + (decRepr e.length).length + 2 + e.length) 0 = 13 := by
    rw [getD_drop_eq, hdrop2, List.getD_append_right _ _ _ _ (le_refl _)]
    simp
  have hlf : data.getD (pos + 1 + (decRepr e.length).length + 2 + e.length + 1) 0 = 10 := by
    rw [show pos + 1 + (decRepr e.length).length + 2 + e.length + 1
        = pos + 1 + (decRepr e.length).length + 2 + (e.length + 1) from by omega]
    rw [getD_drop_eq, hdrop2, List.getD_append_right _ _ _ _ (by omega)]
    simp
  rw [hcr, hlf]
  rw [if_neg (by omega : ¬ ((13 : Nat) ≠ 13 ∨ (10 : Nat) ≠ 10))]
  rw [hdrop2, List.take_left]
  have : pos + 1 + (decRepr e.length).length + 2 + e.length + 2
      = pos + (encBulk e).length := by
    simp [encBulk]
    omega
  rw [this]

/-- The element loop on a concatenation of encoded bulk strings. -/
theorem readElems_enc (data : Bytes) : ∀ (elems : List Bytes) (pos : Nat) (rest : Bytes),
    data.drop pos = (elems.map encBulk).flatten ++ rest →
    (∀ e ∈ elems, e.length ≤ 1048576) →
    readElems data pos elems.length
      = .ok (elems.map some) (pos + ((elems.map encBulk).flatten).length) := by
  intro elems
  induction elems with
  | nil =>
    intro pos rest _ _
    simp [readElems]
  | cons e es ih =>
    intro pos rest hdrop hsz
    have hdrop' : data.drop pos = encBulk e ++ ((es.map encBulk).flatten ++ rest) := by
      simpa [List.append_assoc] using hdrop
    have hdroptail : data.drop (pos + (encBulk e).length)
        = (es.map encBulk).flatten ++ rest := by
      rw [← List.drop_drop, hdrop', List.drop_left]
    rw [show (e :: es).length = es.length + 1 from rfl, readElems]
    rw [read_bulk_enc data pos e _ hdrop' (hsz e (by simp))]
    simp only []
    rw [ih (pos + (encBulk e).length) rest hdroptail (fun x hx => hsz x (by simp [hx]))]
    simp [Nat.add_assoc]

/-- Claim C8: a syntactically valid RESP command frame (array header with
`n ∈ [1, 100]` elements, each a bulk string of at most 1 MiB), possibly
followed by further buffered bytes, parses to exactly the frame's byte
length as the consumed count, its first element as the command, and the
remaining elements, in order, as the argument vector. -/
theorem resp_parse_roundtrip (h0 : Bytes) (t : List Bytes) (rest : Bytes)
    (hcount : t.length + 1 ≤ 100)
    (hsz : ∀ e ∈ h0 :: t, e.length ≤ 1048576) :
    resp_parse (encFrame (h0 :: t) ++ rest)
      = .ok (encFrame (h0 :: t)).length (some h0) (t.map some) := by
  have hd1 : (decRepr (t.length + 1)).length ≠ 0 := by
    simpa [List.length_eq_zero] using decRepr_ne_nil (t.length + 1)
  have hd20 : (decRepr (t.length + 1)).length ≤ 20 :=
    decRepr_length_le (lt_of_le_of_lt hcount (by norm_num)) (by norm_num)
  have hflat : encFrame (h0 :: t) ++ rest
      = 42 :: (decRepr (t.length + 1)
          ++ 13 :: 10 :: (((h0 :: t).map encBulk).flatten ++ rest)) := by
    simp [encFrame]
  have hlen4 : ¬ ((encFrame (h0 :: t) ++ rest).length < 4) := by
    rw [hflat]
    simp
    omega
  have hdropint : (encFrame (h0 :: t) ++ rest).drop 1
      = decRepr (t.length + 1) ++ 13 :: 10 :: (((h0 :: t).map encBulk).flatten ++ rest) := by
    rw [hflat]
    rfl
  have hdropelems : (encFrame (h0 :: t) ++ rest).drop
        (1 + (decRepr (t.length + 1)).length + 2)
      = ((h0 :: t).map encBulk).flatten ++ rest := by
    rw [show (1 : Nat) + (decRepr (t.length + 1)).length + 2
        = 1 + ((decRepr (t.length + 1)).length + 2) from by omega]
    rw [← List.drop_drop, hdropint]
    rw [show decRepr (t.length + 1)
          ++ 13 :: 10 :: (((h0 :: t).map encBulk).flatten ++ rest)
        = (decRepr (t.length + 1) ++ [13, 10])
          ++ (((h0 :: t).map encBulk).flatten ++ rest) from by simp]
    rw [show (decRepr (t.length + 1)).length + 2
        = (decRepr (t.length + 1) ++ [13, 10]).length from by simp]
    exact List.drop_left _ _
  rw [resp_parse, if_neg hlen4]
  have hpeek : bufPeek (encFrame (h0 :: t) ++ rest) 0 = 42 := by
    rw [hflat]
    rfl
  rw [hpeek]
  rw [if_neg (by omega : ¬ ((42 : Nat) ≠ 42))]
  rw [read_integer_decRepr (encFrame (h0 :: t) ++ rest) 1 (t.length + 1) _ hdropint hd20
    (by omega)]
  simp only []
  rw [if_neg (by omega :
    ¬ (((t.length + 1 : Nat) : Int) ≤ 0 ∨ ((t.length + 1 : Nat) : Int) > 100))]
  rw [show (((t.length + 1 : Nat) : Int)).toNat = (h0 :: t).length from by simp]
  rw [readElems_enc (encFrame (h0 :: t) ++ rest) (h0 :: t)
    (1 + (decRepr (t.length + 1)).length + 2) rest hdropelems hsz]
  simp only [List.map_cons, List.headD_cons, List.tail_cons]
  have hconsumed : 1 + (decRepr (t.length + 1)).length + 2
        + ((encBulk h0 :: t.map encBulk).flatten).length
      = (encFrame (h0 :: t)).length := by
    simp [encFrame]
    omega
  rw [hconsumed]

/-- Claim C8 (witness): the two-element frame `GET k` followed by a stray
byte parses to its 20-byte length, command `GET` and the single argument. -/
theorem resp_parse_roundtrip_witness :
    resp_parse (encFrame [ascii "GET", ascii "k"] ++ [42])
      = .ok (encFrame [ascii "GET", ascii "k"]).length (some (ascii "GET"))
          [some (ascii "k")] :=
  resp_parse_roundtrip (ascii "GET") [ascii "k"] [42] (by decide) (by decide)

/-- Claim C9 (amended): the partition allocates and indexes
`calculate_hash_table_size(capacity) + 1` buckets; the computed size itself
is the next power of two above `(capacity / 1024) / 0.75`, clamped to
`[16, 65536]` — but the bucket count actually used is that power of two plus
one. -/
theorem hash_table_size_characterization (cap : Nat) :
    (lru_cache_create cap).hash_table_size = calculate_hash_table_size cap + 1 ∧
    (∃ k, calculate_hash_table_size cap = 2 ^ k) ∧
    16 ≤ calculate_hash_table_size cap ∧
    calculate_hash_table_size cap ≤ 65536 ∧
    (4 * (cap / 1024) / 3 ≤ calculate_hash_table_size cap ∨
      calculate_hash_table_size cap = 65536) ∧
    (calculate_hash_table_size cap = 16 ∨
      calculate_hash_table_size cap / 2 < 4 * (cap / 1024) / 3) := by
  have h := htLoop_props 13 16 (4 * (cap / 1024) / 3) ⟨4, by norm_num⟩
    (by norm_num) (by norm_num) (by norm_num) (Or.inl rfl)
  exact ⟨rfl, h.1, h.2.1, h.2.2.1, h.2.2.2.1, h.2.2.2.2⟩

end PodCache
